import Mathlib

/-!
Shallow embedding of the incremental tweet-collection engine of the
`TwitterScraper` content script (class `TwitterScraper`): the data model
(`ScrapingConfig`, `ScrapedTweet`), per-cycle collection (`scrapeTweets`:
date filtering, count cap, fingerprint deduplication), thread
reconstruction (`processTweetsForThreads` / `finalizeThread`), the stop
condition (`shouldStopScraping` / `getCurrentTweetDates`), one step of the
date-range seeking loop (`scrollToDateRange`), and start-command handling
(`startScraping`).

JavaScript peculiarities are embedded explicitly:
- `new Date(s)` is modelled by an arbitrary parameter
  `parse : String → Option Int` (epoch value, `none` for an invalid date);
- comparisons on dates follow JS semantics where any comparison with an
  invalid date (`NaN`) is false (`jsLt`, `jsLe`, `jsGt`, `jsGe`);
- truthiness: a number is falsy iff it is `0` or absent, a string is falsy
  iff it is empty or absent.
-/

namespace ScrollScrape

/-- The `dateRange` sub-object of `ScrapingConfig` (fields `start`, `end`). -/
structure DateRangeCfg where
  start : String
  «end» : String
deriving DecidableEq, Repr

/-- Embeds `interface ScrapingConfig`: `maxTweets?: number`, `dateRange?`, `scrapeAll`. -/
structure ScrapingConfig where
  maxTweets : Option Nat := none
  dateRange : Option DateRangeCfg := none
  scrapeAll : Bool
deriving DecidableEq, Repr

/-- The object literal returned by `extractTweetData`: `text`, `timestamp`
(always a string, possibly empty), `author` (always a string, possibly
empty), plus optional quoted-tweet URL and media URLs. The thread fields of
`ScrapedTweet` are not set by extraction. -/
structure RawTweet where
  text : String
  timestamp : String
  author : String
  quotedTweetUrl : Option String := none
  mediaUrls : Option (List String) := none
deriving DecidableEq, Repr

/-- Embeds `interface ScrapedTweet`. `timestamp` and `author` are produced by
`extractTweetData` as strings (empty when missing in the DOM); the three
thread fields and the two URL fields are `undefined` (`none`) until set. -/
structure ScrapedTweet where
  text : String
  timestamp : String
  author : String
  isThread : Option Bool := none
  threadTweets : Option (List String) := none
  threadPosition : Option Nat := none
  quotedTweetUrl : Option String := none
  mediaUrls : Option (List String) := none
deriving DecidableEq, Repr

/-- View an extraction result as a `ScrapedTweet` with thread fields unset,
exactly as the object literal at the end of `extractTweetData`. -/
def RawTweet.toScraped (r : RawTweet) : ScrapedTweet :=
  { text := r.text, timestamp := r.timestamp, author := r.author,
    quotedTweetUrl := r.quotedTweetUrl, mediaUrls := r.mediaUrls }

/-- A rendered tweet node, abstracted to the two observations the thread
logic makes of it: the result of `extractTweetData` on it (`none` when the
node yields no usable record) and whether the visual thread-connector test
of `isThreadContinuation` succeeds for it (`hasThreadConnector ||
hasPreviousThreadConnector`). -/
structure TweetElement where
  extracted : Option RawTweet
  hasConnector : Bool
deriving DecidableEq, Repr

/-- JS `a < b` on two `Date` values: false when either is invalid (`NaN`). -/
def jsLt : Option Int → Option Int → Bool
  | some a, some b => a < b
  | _, _ => false

/-- JS `a <= b` on two `Date` values: false when either is invalid. -/
def jsLe : Option Int → Option Int → Bool
  | some a, some b => a ≤ b
  | _, _ => false

/-- JS `a > b` on two `Date` values. -/
def jsGt (a b : Option Int) : Bool := jsLt b a

/-- JS `a >= b` on two `Date` values. -/
def jsGe (a b : Option Int) : Bool := jsLe b a

/-- Embeds `isThreadContinuation(tweetElement, lastAuthor, currentAuthor)`:
connector present (on the node or its previous container) AND both author
strings truthy (non-empty) AND strictly equal. -/
def isThreadContinuation (e : TweetElement) (lastAuthor currentAuthor : String) : Bool :=
  e.hasConnector && !(lastAuthor == "") && !(currentAuthor == "")
    && (lastAuthor == currentAuthor)

/-- The indexed `forEach` of `finalizeThread`, starting at index `i`: each
member gets `isThread = true`, the shared `threadTweets` list, and
`threadPosition = index + 1`. -/
def finalizeFrom (texts : List String) : Nat → List ScrapedTweet → List ScrapedTweet
  | _, [] => []
  | i, t :: ts =>
    { t with isThread := some true, threadTweets := some texts,
             threadPosition := some (i + 1) } :: finalizeFrom texts (i + 1) ts

/-- Embeds `finalizeThread(threadTweets)`: collect all member texts, then annotate
every member with the thread fields. -/
def finalizeThread (g : List ScrapedTweet) : List ScrapedTweet :=
  finalizeFrom (g.map ScrapedTweet.text) 0 g

/-- Emitting a pending group in `processTweetsForThreads`: a group of ≥ 2
members is finalized as a thread, a singleton is pushed unchanged, an empty
group emits nothing. -/
def flushThread (g : List ScrapedTweet) : List ScrapedTweet :=
  if 1 < g.length then finalizeThread g else g

/-- The scan loop of `processTweetsForThreads`, carrying the pending group
`currentThread` and `lastAuthor` (the author recorded when the pending
group was started). A node whose extraction fails is skipped. An extracted
record extends the pending non-empty group when `isThreadContinuation`
holds; otherwise the pending group is flushed and a new group is started
with the record, recording its author. The trailing group is flushed at the
end. -/
def processLoop : List TweetElement → List ScrapedTweet → String → List ScrapedTweet
  | [], currentThread, _ => flushThread currentThread
  | e :: rest, currentThread, lastAuthor =>
    match e.extracted with
    | none => processLoop rest currentThread lastAuthor
    | some td =>
      if isThreadContinuation e lastAuthor td.author && !currentThread.isEmpty then
        processLoop rest (currentThread ++ [td.toScraped]) lastAuthor
      else
        flushThread currentThread ++ processLoop rest [td.toScraped] td.author

/-- Embeds `processTweetsForThreads(tweetElements)`: scan with an empty pending
group and empty `lastAuthor`. -/
def processTweetsForThreads (elems : List TweetElement) : List ScrapedTweet :=
  processLoop elems [] ""

/-- The successive values of `currentThread` that `processTweetsForThreads`
flushes, in emission order (the implicit group structure of the loop; each
group is listed before finalization). Empty pending groups are not listed. -/
def groupLoop : List TweetElement → List ScrapedTweet → String → List (List ScrapedTweet)
  | [], currentThread, _ => if currentThread.isEmpty then [] else [currentThread]
  | e :: rest, currentThread, lastAuthor =>
    match e.extracted with
    | none => groupLoop rest currentThread lastAuthor
    | some td =>
      if isThreadContinuation e lastAuthor td.author && !currentThread.isEmpty then
        groupLoop rest (currentThread ++ [td.toScraped]) lastAuthor
      else
        (if currentThread.isEmpty then [] else [currentThread])
          ++ groupLoop rest [td.toScraped] td.author

/-- The thread groups of a rendered sequence, pre-finalization. -/
def threadGroups (elems : List TweetElement) : List (List ScrapedTweet) :=
  groupLoop elems [] ""

/-- The unique identifier of `scrapeTweets`:
`` `${text.substring(0, 50)}_${timestamp}` ``. -/
def fingerprint (t : ScrapedTweet) : String :=
  t.text.take 50 ++ "_" ++ t.timestamp

/-- The `allTweets.some(...)` duplicate test of `scrapeTweets`: an existing
item with an equal fingerprint or strictly equal full text. -/
def isDup (acc : List ScrapedTweet) (c : ScrapedTweet) : Bool :=
  acc.any fun t => fingerprint t == fingerprint c || t.text == c.text

/-- Embeds `this.config.maxTweets && this.allTweets.length >= this.config.maxTweets`:
`maxTweets` truthy (present and non-zero) and the accumulated length has
reached it. -/
def maxReached (cfg : ScrapingConfig) (len : Nat) : Bool :=
  match cfg.maxTweets with
  | some n => decide (0 < n) && decide (n ≤ len)
  | none => false

/-- Embeds `!this.config.maxTweets || this.allTweets.length < this.config.maxTweets`:
the double-check guarding the push. -/
def underMax (cfg : ScrapingConfig) (len : Nat) : Bool :=
  match cfg.maxTweets with
  | some n => decide (n = 0) || decide (len < n)
  | none => true

/-- The date-range filter of `scrapeTweets`: with a `dateRange` configured
and a truthy (non-empty) timestamp on the record, the record is skipped
when `tweetDate < startDate || tweetDate > endDate` under JS `Date`
comparison (an unparseable date compares false on both sides, so such a
record is never skipped). -/
def dateOutOfRange (cfg : ScrapingConfig) (parse : String → Option Int)
    (c : ScrapedTweet) : Bool :=
  match cfg.dateRange with
  | none => false
  | some r =>
    if c.timestamp == "" then false
    else jsLt (parse c.timestamp) (parse r.start)
      || jsGt (parse c.timestamp) (parse r.«end»)

/-- The body of the `processedTweets.forEach` in `scrapeTweets`, for one
processed record: skip when the count cap is already reached; skip when the
date filter rejects; skip when a duplicate; otherwise push subject to the
`underMax` double-check. -/
def addTweet (cfg : ScrapingConfig) (parse : String → Option Int)
    (acc : List ScrapedTweet) (c : ScrapedTweet) : List ScrapedTweet :=
  if maxReached cfg acc.length then acc
  else if dateOutOfRange cfg parse c then acc
  else if isDup acc c then acc
  else if underMax cfg acc.length then acc ++ [c]
  else acc

/-- Embeds `scrapeTweets` restricted to its state effect on `allTweets`: process
the rendered nodes for threads, then fold every processed record through
the cap / date-filter / dedup pipeline in rendered order. -/
def scrapeTweets (cfg : ScrapingConfig) (parse : String → Option Int)
    (acc : List ScrapedTweet) (tweetElements : List TweetElement) : List ScrapedTweet :=
  (processTweetsForThreads tweetElements).foldl (addTweet cfg parse) acc

/-- A whole run of collection cycles starting from the empty accumulation
(`startScraping` resets `allTweets = []`), one rendered snapshot per cycle. -/
def runCycles (cfg : ScrapingConfig) (parse : String → Option Int)
    (cycles : List (List TweetElement)) : List ScrapedTweet :=
  cycles.foldl (scrapeTweets cfg parse) []

/-- Embeds `getCurrentTweetDates(count)`: take the first `count` rendered tweet
nodes, keep those whose `time` element has a truthy `datetime` attribute
(modelled as `Option String`), and build `new Date(datetime)` for each
(`parse`, `none` standing for an invalid date). -/
def getCurrentTweetDates (parse : String → Option Int)
    (datetimes : List (Option String)) (count : Nat) : List (Option Int) :=
  ((datetimes.take count).filterMap id).map parse

/-- Embeds `shouldStopScraping()`: stop when the count cap is reached; never stop
in `scrapeAll` mode; in date-range mode stop when at least 3 sampled dates
exist (from the first 5 rendered nodes) and every one is strictly older
than the range start under JS comparison. `datetimes` is the `datetime`
attribute of each currently rendered tweet node in order. -/
def shouldStopScraping (cfg : ScrapingConfig) (parse : String → Option Int)
    (accLen : Nat) (datetimes : List (Option String)) : Bool :=
  if maxReached cfg accLen then true
  else if cfg.scrapeAll then false
  else
    match cfg.dateRange with
    | some r =>
      let currentPageTweets := getCurrentTweetDates parse datetimes 5
      decide (3 ≤ currentPageTweets.length)
        && currentPageTweets.all fun d => jsLt d (parse r.start)
    | none => false

/-- What one iteration of the `scrollToDateRange` seeking loop decides to
do with the sampled dates. -/
inductive SeekAction where
  | startCollecting
  | scrollRetry
  | giveUp
  | spinRetry
deriving DecidableEq, Repr

/-- One iteration of the `while` loop in `scrollToDateRange`: sample the
first 3 rendered dates; with no sample, scroll and retry; with any sample
inside `[start, end]` (JS `>= start && <= end`), begin collecting
(`scrapeAndScroll`); with every sample newer than `end`, scroll and retry;
with every sample older than `start`, give up after more than 40 attempts,
otherwise scroll and retry; in any other case only the attempt counter
advances (`spinRetry`). -/
def seekStep (parse : String → Option Int) (r : DateRangeCfg) (attempts : Nat)
    (datetimes : List (Option String)) : SeekAction :=
  let currentTweets := getCurrentTweetDates parse datetimes 3
  if currentTweets.length = 0 then .scrollRetry
  else if currentTweets.any (fun d => jsGe d (parse r.start) && jsLe d (parse r.«end»)) then
    .startCollecting
  else if currentTweets.all (fun d => jsGt d (parse r.«end»)) then .scrollRetry
  else if currentTweets.all (fun d => jsLt d (parse r.start)) then
    (if 40 < attempts then .giveUp else .scrollRetry)
  else .spinRetry

/-- The engine state `startScraping` reads and writes: the accumulated
tweets, the active flag, and the installed config. -/
structure ScraperState where
  allTweets : List ScrapedTweet
  isActive : Bool
  config : ScrapingConfig
deriving DecidableEq, Repr

/-- Embeds `startScraping(config)`: a no-op while already active; otherwise
install the config, set active, and reset `allTweets` to empty (all before
any collection is kicked off). -/
def startScraping (s : ScraperState) (cfg : ScrapingConfig) : ScraperState :=
  if s.isActive then s
  else { allTweets := [], isActive := true, config := cfg }

/-- Two retained items are distinct observations: different fingerprints
and different raw texts (invariant I1). -/
def DistinctItems (s t : ScrapedTweet) : Prop :=
  fingerprint s ≠ fingerprint t ∧ s.text ≠ t.text

/-- The timestamp of `t`, when present and parseable, lies within `[s, e]`. -/
def InRange (p : String → Option Int) (s e : Int) (t : ScrapedTweet) : Prop :=
  ∀ v : Int, t.timestamp ≠ "" → p t.timestamp = some v → s ≤ v ∧ v ≤ e

/-- Forget the three thread-annotation fields of a record. -/
def stripThread (t : ScrapedTweet) : ScrapedTweet :=
  { t with isThread := none, threadTweets := none, threadPosition := none }

/-! ### Concrete fixtures used by the witness theorems -/

/-- A small concrete stand-in for `new Date` on the fixture strings (day
numbers relative to 2024-01-01); any other string is an invalid date. -/
def parseFix : String → Option Int := fun s =>
  if s = "2024-01-10" then some 10
  else if s = "2024-01-11" then some 11
  else if s = "2024-01-12" then some 12
  else if s = "2024-01-13" then some 13
  else if s = "2024-03-05" then some 65
  else none

/-- Fixture extraction result: first member of a two-tweet thread. -/
def rawA : RawTweet := ⟨"first post in a thread", "2024-01-10", "alice", none, none⟩

/-- Fixture extraction result: second member of a two-tweet thread. -/
def rawB : RawTweet := ⟨"second post in a thread", "2024-01-11", "alice", none, none⟩

/-- Fixture extraction result: a standalone tweet by another author. -/
def rawD : RawTweet := ⟨"a standalone post", "2024-01-12", "dana", none, none⟩

/-- Fixture rendered node for `rawA` (no connector). -/
def elemA : TweetElement := ⟨some rawA, false⟩

/-- Fixture rendered node for `rawB` (connector present). -/
def elemB : TweetElement := ⟨some rawB, true⟩

/-- Fixture rendered node for `rawD` (no connector). -/
def elemD : TweetElement := ⟨some rawD, false⟩

/-- A fixture rendered sequence: a two-tweet thread then a singleton. -/
def demoElems : List TweetElement := [elemA, elemB, elemD]

/-- Fixture retained item whose text is 53 characters long. -/
def longA : ScrapedTweet :=
  { text := "01234567890123456789012345678901234567890123456789AAA",
    timestamp := "2024-01-10", author := "a" }

/-- Fixture candidate sharing `longA`'s first 50 characters and timestamp
but with a different full text. -/
def longB : ScrapedTweet :=
  { text := "01234567890123456789012345678901234567890123456789BBB",
    timestamp := "2024-01-10", author := "a" }

/-- Fixture config: scrape-all mode. -/
def cfgAllFix : ScrapingConfig := { scrapeAll := true }

/-- Fixture config: count mode with cap 2. -/
def cfgCountFix : ScrapingConfig := { maxTweets := some 2, scrapeAll := false }

/-- Fixture date range: 2024-01-10 to 2024-01-12. -/
def rangeFix : DateRangeCfg := ⟨"2024-01-10", "2024-01-12"⟩

/-- Fixture config: date-range mode over `rangeFix`. -/
def cfgRangeFix : ScrapingConfig := { dateRange := some rangeFix, scrapeAll := false }

/-! ### Helper lemmas -/

lemma jsLt_some_right_iff {d : Option Int} {s : Int} :
    jsLt d (some s) = true ↔ ∃ v, d = some v ∧ v < s := by
  cases d with
  | none => simp [jsLt]
  | some v => simp [jsLt]

lemma jsLt_none_right {d : Option Int} : jsLt d none = false := by
  cases d <;> rfl

lemma jsLe_some_right_iff {d : Option Int} {s : Int} :
    jsLe d (some s) = true ↔ ∃ v, d = some v ∧ v ≤ s := by
  cases d with
  | none => simp [jsLe]
  | some v => simp [jsLe]

lemma jsGt_some_right_iff {d : Option Int} {s : Int} :
    jsGt d (some s) = true ↔ ∃ v, d = some v ∧ s < v := by
  cases d with
  | none => simp [jsGt, jsLt]
  | some v => simp [jsGt, jsLt]

lemma jsGe_some_right_iff {d : Option Int} {s : Int} :
    jsGe d (some s) = true ↔ ∃ v, d = some v ∧ s ≤ v := by
  cases d with
  | none => simp [jsGe, jsLe]
  | some v => simp [jsGe, jsLe]

lemma maxReached_mono {cfg : ScrapingConfig} {la lb : Nat}
    (h : maxReached cfg la = true) (hle : la ≤ lb) : maxReached cfg lb = true := by
  cases hm : cfg.maxTweets with
  | none => simp [maxReached, hm] at h
  | some n =>
    simp only [maxReached, hm, Bool.and_eq_true, decide_eq_true_eq] at h ⊢
    exact ⟨h.1, h.2.trans hle⟩

lemma maxReached_eq_not_underMax (cfg : ScrapingConfig) (len : Nat) :
    maxReached cfg len = !underMax cfg len := by
  cases hm : cfg.maxTweets with
  | none => simp [maxReached, underMax, hm]
  | some n =>
    simp only [maxReached, underMax, hm, Bool.not_or, ← decide_not, ← Bool.decide_and,
      decide_eq_decide]
    omega

/-! ### C8: start-command semantics -/

/-- C8: a `START` received while a run is active leaves the whole state
unchanged; a `START` received while inactive resets the accumulated
sequence to empty, installs the supplied config, and marks the run active,
before any collection begins. -/
theorem start_command_semantics (s : ScraperState) (cfg : ScrapingConfig) :
    (s.isActive = true → startScraping s cfg = s)
    ∧ (s.isActive = false →
        startScraping s cfg = { allTweets := [], isActive := true, config := cfg }) := by
  constructor
  · intro h; simp [startScraping, h]
  · intro h; simp [startScraping, h]

/-- Witness for C8 at a concrete active state and a concrete inactive state. -/
theorem start_command_semantics_witness :
    startScraping ⟨[⟨"t", "x", "a", none, none, none, none, none⟩], true, { scrapeAll := true }⟩
        { maxTweets := some 7, scrapeAll := false }
      = ⟨[⟨"t", "x", "a", none, none, none, none, none⟩], true, { scrapeAll := true }⟩ :=
  (start_command_semantics
    ⟨[⟨"t", "x", "a", none, none, none, none, none⟩], true, { scrapeAll := true }⟩
    { maxTweets := some 7, scrapeAll := false }).1 rfl

/-! ### C5: stop condition -/

/-- C5: the stop-condition evaluator, for well-formed configs: in All mode
(no `maxTweets`) it never stops; in Count mode with positive `maxItems = n`
and no date range it stops iff the accumulated length has reached `n`; in
DateRange mode (no `maxTweets`) it stops iff at least 3 sampled leading
dates exist and every one of them parses strictly older than the range
start. -/
theorem stop_condition_correct (cfg : ScrapingConfig) (p : String → Option Int)
    (accLen : Nat) (datetimes : List (Option String)) :
    (cfg.scrapeAll = true → cfg.maxTweets = none →
      shouldStopScraping cfg p accLen datetimes = false)
    ∧ (∀ n : Nat, cfg.scrapeAll = false → cfg.maxTweets = some n → 0 < n →
        cfg.dateRange = none →
        (shouldStopScraping cfg p accLen datetimes = true ↔ n ≤ accLen))
    ∧ (∀ r : DateRangeCfg, ∀ s : Int, cfg.scrapeAll = false → cfg.maxTweets = none →
        cfg.dateRange = some r → p r.start = some s →
        (shouldStopScraping cfg p accLen datetimes = true ↔
          3 ≤ (getCurrentTweetDates p datetimes 5).length ∧
          ∀ d ∈ getCurrentTweetDates p datetimes 5, ∃ v, d = some v ∧ v < s)) := by
  refine ⟨?_, ?_, ?_⟩
  · intro hall hmax
    simp [shouldStopScraping, maxReached, hmax, hall]
  · intro n hall hmax hn hdr
    by_cases hle : n ≤ accLen
    · simp [shouldStopScraping, maxReached, hmax, hall, hdr, hn, hle]
    · simp [shouldStopScraping, maxReached, hmax, hall, hdr, hn, hle]
  · intro r s hall hmax hdr hps
    simp [shouldStopScraping, maxReached, hmax, hall, hdr, hps,
      List.all_eq_true, jsLt_some_right_iff]

/-- Witness for C5: with cap 2 and 2 accumulated items the evaluator stops. -/
theorem stop_condition_correct_witness :
    shouldStopScraping cfgCountFix parseFix 2 [] = true :=
  ((stop_condition_correct cfgCountFix parseFix 2 []).2.1 2 rfl rfl (by decide) rfl).2
    (by decide)

/-! ### C7: Seeking pre-phase transitions -/

/-- C7: one iteration of the Seeking loop: if any sampled leading date lies
inside `[start, end]` (inclusive) the controller starts collecting
immediately; as long as every sampled date is strictly newer than `end` it
scrolls down, waits and retries without collecting. -/
theorem seeking_transitions (p : String → Option Int) (r : DateRangeCfg)
    (s e : Int) (attempts : Nat) (datetimes : List (Option String))
    (hs : p r.start = some s) (he : p r.«end» = some e) :
    ((∃ d ∈ getCurrentTweetDates p datetimes 3, ∃ v, d = some v ∧ s ≤ v ∧ v ≤ e) →
      seekStep p r attempts datetimes = SeekAction.startCollecting)
    ∧ ((∀ d ∈ getCurrentTweetDates p datetimes 3, ∃ v, d = some v ∧ e < v) →
      seekStep p r attempts datetimes = SeekAction.scrollRetry) := by
  constructor
  · rintro ⟨d, hd, v, hdv, hsv, hve⟩
    have hne : ¬(getCurrentTweetDates p datetimes 3).length = 0 := by
      intro h0
      rw [List.length_eq_zero] at h0
      rw [h0] at hd
      exact absurd hd (List.not_mem_nil d)
    have hany : (getCurrentTweetDates p datetimes 3).any
        (fun d => jsGe d (p r.start) && jsLe d (p r.«end»)) = true := by
      refine List.any_eq_true.2 ⟨d, hd, ?_⟩
      rw [hs, he, hdv]
      simp only [Bool.and_eq_true, jsGe_some_right_iff, jsLe_some_right_iff]
      exact ⟨⟨v, rfl, hsv⟩, ⟨v, rfl, hve⟩⟩
    simp [seekStep, hne, hany]
  · intro hall
    by_cases hz : (getCurrentTweetDates p datetimes 3).length = 0
    · simp [seekStep, hz]
    · have hnotin : (getCurrentTweetDates p datetimes 3).any
          (fun d => jsGe d (p r.start) && jsLe d (p r.«end»)) = false := by
        rw [List.any_eq_false]
        intro d hd
        rcases hall d hd with ⟨v, hdv, hev⟩
        rw [hs, he, hdv]
        simp only [Bool.and_eq_true, jsGe_some_right_iff, jsLe_some_right_iff, not_and]
        rintro - ⟨w, hw, hwe⟩
        rw [Option.some_inj] at hw
        omega
      have hafter : (getCurrentTweetDates p datetimes 3).all
          (fun d => jsGt d (p r.«end»)) = true := by
        rw [List.all_eq_true]
        intro d hd
        rcases hall d hd with ⟨v, hdv, hev⟩
        rw [he, hdv, jsGt_some_right_iff]
        exact ⟨v, rfl, hev⟩
      simp [seekStep, hz, hnotin, hafter]

/-- Witness for C7: a sample containing 2024-01-11 inside the fixture range
makes the Seeking loop start collecting. -/
theorem seeking_transitions_witness :
    seekStep parseFix rangeFix 0 [some "2024-01-11"] = SeekAction.startCollecting :=
  (seeking_transitions parseFix rangeFix 10 12 0 [some "2024-01-11"] rfl rfl).1
    ⟨some 11, by decide, 11, rfl, by decide, by decide⟩

/-! ### C2: count cap -/

lemma addTweet_cases (cfg : ScrapingConfig) (p : String → Option Int)
    (acc : List ScrapedTweet) (c : ScrapedTweet) :
    addTweet cfg p acc c = acc
    ∨ (addTweet cfg p acc c = acc ++ [c] ∧ isDup acc c = false
        ∧ dateOutOfRange cfg p c = false ∧ underMax cfg acc.length = true) := by
  unfold addTweet
  by_cases h1 : maxReached cfg acc.length = true
  · left; simp [h1]
  · by_cases h2 : dateOutOfRange cfg p c = true
    · left; simp [h1, h2]
    · by_cases h3 : isDup acc c = true
      · left; simp [h1, h2, h3]
      · by_cases h4 : underMax cfg acc.length = true
        · right
          refine ⟨by simp [h1, h2, h3, h4], by simpa using h3, by simpa using h2, h4⟩
        · left; simp [h1, h2, h3, h4]

lemma underMax_lt {cfg : ScrapingConfig} {n len : Nat} (hmax : cfg.maxTweets = some n)
    (hn : 0 < n) (h : underMax cfg len = true) : len < n := by
  simp only [underMax, hmax, Bool.or_eq_true, decide_eq_true_eq] at h
  omega

lemma addTweet_of_maxReached {cfg : ScrapingConfig} {acc : List ScrapedTweet}
    (h : maxReached cfg acc.length = true) (p : String → Option Int) (c : ScrapedTweet) :
    addTweet cfg p acc c = acc := by
  simp [addTweet, h]

lemma foldl_length_le {cfg : ScrapingConfig} {n : Nat} (p : String → Option Int)
    (hmax : cfg.maxTweets = some n) (hn : 0 < n) :
    ∀ (l : List ScrapedTweet) (acc : List ScrapedTweet), acc.length ≤ n →
      (l.foldl (addTweet cfg p) acc).length ≤ n := by
  intro l
  induction l with
  | nil => intro acc h; simpa using h
  | cons c l ih =>
    intro acc h
    rw [List.foldl_cons]
    apply ih
    rcases addTweet_cases cfg p acc c with he | ⟨he, -, -, hu⟩
    · rw [he]; exact h
    · rw [he, List.length_append, List.length_singleton]
      exact underMax_lt hmax hn hu

lemma foldl_stationary {cfg : ScrapingConfig} {n : Nat} (p : String → Option Int)
    (hmax : cfg.maxTweets = some n) (hn : 0 < n) {acc : List ScrapedTweet}
    (h : n ≤ acc.length) (l : List ScrapedTweet) :
    l.foldl (addTweet cfg p) acc = acc := by
  induction l with
  | nil => rfl
  | cons c l ih =>
    rw [List.foldl_cons, addTweet_of_maxReached ?_ p c, ih]
    simp only [maxReached, hmax, Bool.and_eq_true, decide_eq_true_eq]
    exact ⟨hn, h⟩

/-- C2: in Count mode with positive `maxItems = n`: a collection cycle
preserves `length ≤ n`; once the accumulated length has reached `n` a
cycle appends nothing; and a whole run never exceeds `n`. -/
theorem count_cap (cfg : ScrapingConfig) (p : String → Option Int) (n : Nat)
    (hmax : cfg.maxTweets = some n) (hn : 0 < n) :
    (∀ (acc : List ScrapedTweet) (elems : List TweetElement),
        acc.length ≤ n → (scrapeTweets cfg p acc elems).length ≤ n)
    ∧ (∀ (acc : List ScrapedTweet) (elems : List TweetElement),
        n ≤ acc.length → scrapeTweets cfg p acc elems = acc)
    ∧ (∀ cycles : List (List TweetElement), (runCycles cfg p cycles).length ≤ n) := by
  refine ⟨?_, ?_, ?_⟩
  · intro acc elems h
    exact foldl_length_le p hmax hn _ acc h
  · intro acc elems h
    exact foldl_stationary p hmax hn h _
  · intro cycles
    have : ∀ (cs : List (List TweetElement)) (acc : List ScrapedTweet), acc.length ≤ n →
        (cs.foldl (scrapeTweets cfg p) acc).length ≤ n := by
      intro cs
      induction cs with
      | nil => intro acc h; simpa using h
      | cons e cs ih =>
        intro acc h
        rw [List.foldl_cons]
        exact ih _ (foldl_length_le p hmax hn _ acc h)
    exact this cycles [] (by simp)

/-- Witness for C2: scraping the fixture nodes under cap 2 retains at most
2 items. -/
theorem count_cap_witness :
    (scrapeTweets cfgCountFix parseFix [] demoElems).length ≤ 2 :=
  (count_cap cfgCountFix parseFix 2 rfl (by decide)).1 [] demoElems (by decide)

/-! ### Deduplication machinery shared by C1, C3, C6, C10 -/

lemma jsLt_none_left {b : Option Int} : jsLt none b = false := by
  cases b <;> rfl

lemma isDup_of_mem {acc : List ScrapedTweet} {c t : ScrapedTweet} (ht : t ∈ acc)
    (h : fingerprint t = fingerprint c ∨ t.text = c.text) : isDup acc c = true := by
  refine List.any_eq_true.2 ⟨t, ht, ?_⟩
  rcases h with h | h <;> simp [h]

lemma isDup_self {b : List ScrapedTweet} {c : ScrapedTweet} (hc : c ∈ b) :
    isDup b c = true :=
  isDup_of_mem hc (Or.inl rfl)

lemma isDup_eq_false_iff {acc : List ScrapedTweet} {c : ScrapedTweet} :
    isDup acc c = false ↔ ∀ t ∈ acc, fingerprint t ≠ fingerprint c ∧ t.text ≠ c.text := by
  simp [isDup, List.any_eq_false, not_or]

lemma addTweet_of_isDup {acc : List ScrapedTweet} {c : ScrapedTweet}
    (h : isDup acc c = true) (cfg : ScrapingConfig) (p : String → Option Int) :
    addTweet cfg p acc c = acc := by
  rcases addTweet_cases cfg p acc c with he | ⟨-, hdup, -, -⟩
  · exact he
  · rw [hdup] at h; exact absurd h (by simp)

lemma addTweet_sublist (cfg : ScrapingConfig) (p : String → Option Int)
    (acc : List ScrapedTweet) (c : ScrapedTweet) :
    List.Sublist acc (addTweet cfg p acc c) := by
  rcases addTweet_cases cfg p acc c with h | ⟨h, -, -, -⟩
  · rw [h]
  · rw [h]; exact List.sublist_append_left acc [c]

lemma foldl_sublist (cfg : ScrapingConfig) (p : String → Option Int) :
    ∀ (l : List ScrapedTweet) (acc : List ScrapedTweet),
      List.Sublist acc (l.foldl (addTweet cfg p) acc) := by
  intro l
  induction l with
  | nil => intro acc; exact List.Sublist.refl acc
  | cons c l ih =>
    intro acc
    rw [List.foldl_cons]
    exact (addTweet_sublist cfg p acc c).trans (ih _)

lemma addTweet_absorb (cfg : ScrapingConfig) (p : String → Option Int)
    {a b : List ScrapedTweet} (c : ScrapedTweet)
    (hs : List.Sublist (addTweet cfg p a c) b) : addTweet cfg p b c = b := by
  by_cases hmb : maxReached cfg b.length = true
  · exact addTweet_of_maxReached hmb p c
  by_cases hd : dateOutOfRange cfg p c = true
  · simp [addTweet, hmb, hd]
  have hab : List.Sublist a b := (addTweet_sublist cfg p a c).trans hs
  have hdupb : isDup b c = true := by
    by_cases hma : maxReached cfg a.length = true
    · exact absurd (maxReached_mono hma hab.length_le) hmb
    by_cases hdup : isDup a c = true
    · rcases List.any_eq_true.1 hdup with ⟨t, ht, hp⟩
      exact List.any_eq_true.2 ⟨t, hab.subset ht, hp⟩
    by_cases hu : underMax cfg a.length = true
    · have he : addTweet cfg p a c = a ++ [c] := by
        simp [addTweet, hma, hd, hdup, hu]
      rw [he] at hs
      exact isDup_self (hs.subset (by simp))
    · exfalso
      have hmr := maxReached_eq_not_underMax cfg a.length
      rw [Bool.eq_false_iff.2 hu] at hmr
      exact hma (by simpa using hmr)
  simp [addTweet, hmb, hd, hdupb]

lemma foldl_fix (cfg : ScrapingConfig) (p : String → Option Int)
    {acc : List ScrapedTweet} {l : List ScrapedTweet}
    (h : ∀ c ∈ l, addTweet cfg p acc c = acc) : l.foldl (addTweet cfg p) acc = acc := by
  induction l with
  | nil => rfl
  | cons c l ih =>
    rw [List.foldl_cons, h c (List.mem_cons_self c l)]
    exact ih fun c' hc' => h c' (List.mem_cons_of_mem c hc')

lemma foldl_absorb (cfg : ScrapingConfig) (p : String → Option Int) :
    ∀ (l : List ScrapedTweet) (acc : List ScrapedTweet) (c : ScrapedTweet), c ∈ l →
      addTweet cfg p (l.foldl (addTweet cfg p) acc) c = l.foldl (addTweet cfg p) acc := by
  intro l
  induction l with
  | nil => intro acc c hc; exact absurd hc (List.not_mem_nil c)
  | cons c0 l ih =>
    intro acc c hc
    rw [List.foldl_cons]
    rcases List.mem_cons.1 hc with rfl | hc'
    · exact addTweet_absorb cfg p c (foldl_sublist cfg p l (addTweet cfg p acc c))
    · exact ih _ c hc'

/-! ### C6: idempotent re-observation -/

/-- C6: re-running extraction + thread reconstruction + deduplication over
an unchanged rendered node sequence a second time appends zero new items
and leaves the accumulated sequence exactly as the first pass left it. -/
theorem reobservation_idempotent (cfg : ScrapingConfig) (p : String → Option Int)
    (acc : List ScrapedTweet) (elems : List TweetElement) :
    scrapeTweets cfg p (scrapeTweets cfg p acc elems) elems
      = scrapeTweets cfg p acc elems := by
  unfold scrapeTweets
  exact foldl_fix cfg p fun c hc => foldl_absorb cfg p _ acc c hc

/-! ### C1: uniqueness invariant -/

lemma pairwise_addTweet (cfg : ScrapingConfig) (p : String → Option Int)
    {acc : List ScrapedTweet} (c : ScrapedTweet)
    (h : acc.Pairwise DistinctItems) : (addTweet cfg p acc c).Pairwise DistinctItems := by
  rcases addTweet_cases cfg p acc c with he | ⟨he, hdup, -, -⟩
  · rw [he]; exact h
  · rw [he, List.pairwise_append]
    refine ⟨h, List.pairwise_singleton _ _, ?_⟩
    intro a ha b hb
    rw [List.mem_singleton] at hb
    subst hb
    exact isDup_eq_false_iff.1 hdup a ha

lemma pairwise_foldl_addTweet (cfg : ScrapingConfig) (p : String → Option Int) :
    ∀ (l : List ScrapedTweet) (acc : List ScrapedTweet),
      acc.Pairwise DistinctItems → (l.foldl (addTweet cfg p) acc).Pairwise DistinctItems := by
  intro l
  induction l with
  | nil => intro acc h; exact h
  | cons c l ih =>
    intro acc h
    rw [List.foldl_cons]
    exact ih _ (pairwise_addTweet cfg p c h)

lemma pairwise_runCycles (cfg : ScrapingConfig) (p : String → Option Int)
    (cycles : List (List TweetElement)) :
    (runCycles cfg p cycles).Pairwise DistinctItems := by
  have : ∀ (cs : List (List TweetElement)) (acc : List ScrapedTweet),
      acc.Pairwise DistinctItems → (cs.foldl (scrapeTweets cfg p) acc).Pairwise DistinctItems := by
    intro cs
    induction cs with
    | nil => intro acc h; exact h
    | cons e cs ih =>
      intro acc h
      rw [List.foldl_cons]
      exact ih _ (pairwise_foldl_addTweet cfg p _ acc h)
  exact this cycles [] List.Pairwise.nil

/-- C1: uniqueness: every run's accumulated result is pairwise distinct in
fingerprint and raw text; the invariant is preserved by every collection
cycle; and a candidate matching a retained item's fingerprint or exact text
is never appended. -/
theorem accumulated_uniqueness (cfg : ScrapingConfig) (p : String → Option Int) :
    (∀ cycles : List (List TweetElement),
      (runCycles cfg p cycles).Pairwise DistinctItems)
    ∧ (∀ (acc : List ScrapedTweet) (elems : List TweetElement),
        acc.Pairwise DistinctItems →
        (scrapeTweets cfg p acc elems).Pairwise DistinctItems)
    ∧ (∀ (acc : List ScrapedTweet) (c : ScrapedTweet), isDup acc c = true →
        addTweet cfg p acc c = acc) := by
  refine ⟨pairwise_runCycles cfg p, ?_, ?_⟩
  · intro acc elems h
    exact pairwise_foldl_addTweet cfg p _ acc h
  · intro acc c h
    exact addTweet_of_isDup h cfg p

set_option maxRecDepth 8000 in
/-- Witness for C1: a candidate duplicating the only retained item is not
appended. -/
theorem accumulated_uniqueness_witness :
    addTweet cfgAllFix parseFix [rawA.toScraped] rawA.toScraped = [rawA.toScraped] :=
  (accumulated_uniqueness cfgAllFix parseFix).2.2 [rawA.toScraped] rawA.toScraped
    (by decide)

/-! ### C10: fingerprint-only rejection -/

/-- C10: a candidate agreeing with an already-retained item on the first 50
text characters and on the timestamp is never appended, even when the full
texts differ; hence no two items retained in one run agree on both. -/
theorem fingerprint_only_dedup (cfg : ScrapingConfig) (p : String → Option Int) :
    (∀ (acc : List ScrapedTweet) (c : ScrapedTweet),
        (∃ t ∈ acc, t.text.take 50 = c.text.take 50 ∧ t.timestamp = c.timestamp) →
        addTweet cfg p acc c = acc)
    ∧ (∀ cycles : List (List TweetElement),
        (runCycles cfg p cycles).Pairwise
          fun a b => ¬(a.text.take 50 = b.text.take 50 ∧ a.timestamp = b.timestamp)) := by
  constructor
  · rintro acc c ⟨t, ht, hpre, hts⟩
    refine addTweet_of_isDup (isDup_of_mem ht (Or.inl ?_)) cfg p
    unfold fingerprint
    rw [hpre, hts]
  · intro cycles
    refine (pairwise_runCycles cfg p cycles).imp ?_
    rintro a b ⟨hfp, -⟩ ⟨hpre, hts⟩
    apply hfp
    unfold fingerprint
    rw [hpre, hts]

set_option maxRecDepth 16000 in
/-- Witness for C10: `longB` shares `longA`'s first 50 characters and
timestamp but not its text, and is rejected. -/
theorem fingerprint_only_dedup_witness :
    addTweet cfgAllFix parseFix [longA] longB = [longA] :=
  (fingerprint_only_dedup cfgAllFix parseFix).1 [longA] longB
    ⟨longA, List.mem_singleton_self longA, by decide, by decide⟩

/-! ### C3: date-filter correctness -/

lemma dateOut_eq_false_of_unparseable (cfg : ScrapingConfig) (p : String → Option Int)
    {c : ScrapedTweet} (h : c.timestamp = "" ∨ p c.timestamp = none) :
    dateOutOfRange cfg p c = false := by
  cases hdr : cfg.dateRange with
  | none => simp [dateOutOfRange, hdr]
  | some r =>
    rcases h with h | h
    · simp [dateOutOfRange, hdr, h]
    · by_cases ht : (c.timestamp == "") = true
      · simp [dateOutOfRange, hdr, ht]
      · simp only [dateOutOfRange, hdr, ht, Bool.false_eq_true, if_false, h, jsGt,
          jsLt_none_left, jsLt_none_right, Bool.or_self]

lemma inRange_of_kept {cfg : ScrapingConfig} {p : String → Option Int}
    {r : DateRangeCfg} {s e : Int} {c : ScrapedTweet}
    (hdr : cfg.dateRange = some r) (hs : p r.start = some s) (he : p r.«end» = some e)
    (h : dateOutOfRange cfg p c = false) : InRange p s e c := by
  intro v hts hv
  have hb : (c.timestamp == "") = false := by simpa using hts
  simp only [dateOutOfRange, hdr, hb, Bool.false_eq_true, if_false, hv, hs, he, jsGt,
    jsLt, Bool.or_eq_false_iff, decide_eq_false_iff_not] at h
  omega

lemma mem_addTweet {cfg : ScrapingConfig} {p : String → Option Int}
    {acc : List ScrapedTweet} {c t : ScrapedTweet} (ht : t ∈ addTweet cfg p acc c) :
    t ∈ acc ∨ (t = c ∧ dateOutOfRange cfg p c = false) := by
  rcases addTweet_cases cfg p acc c with he | ⟨he, -, hdo, -⟩
  · rw [he] at ht; exact Or.inl ht
  · rw [he] at ht
    rcases List.mem_append.1 ht with h | h
    · exact Or.inl h
    · exact Or.inr ⟨List.mem_singleton.1 h, hdo⟩

lemma foldl_preserves_inRange {cfg : ScrapingConfig} {p : String → Option Int}
    {r : DateRangeCfg} {s e : Int}
    (hdr : cfg.dateRange = some r) (hs : p r.start = some s) (he : p r.«end» = some e) :
    ∀ (l : List ScrapedTweet) (acc : List ScrapedTweet),
      (∀ t ∈ acc, InRange p s e t) →
      ∀ t ∈ l.foldl (addTweet cfg p) acc, InRange p s e t := by
  intro l
  induction l with
  | nil => intro acc h; exact h
  | cons c l ih =>
    intro acc h
    rw [List.foldl_cons]
    refine ih _ ?_
    intro t ht
    rcases mem_addTweet ht with h' | ⟨rfl, hdo⟩
    · exact h t h'
    · exact inRange_of_kept hdr hs he hdo

/-- C3: in DateRange mode every item a cycle retains with a present,
parseable timestamp lies within `[start, end]` (so a whole run's result
does too), and the date filter never drops a record whose timestamp is
absent or unparseable. -/
theorem date_filter_correct (cfg : ScrapingConfig) (p : String → Option Int)
    (r : DateRangeCfg) (s e : Int) (hdr : cfg.dateRange = some r)
    (hs : p r.start = some s) (he : p r.«end» = some e) :
    (∀ (acc : List ScrapedTweet) (elems : List TweetElement),
        (∀ t ∈ acc, InRange p s e t) →
        ∀ t ∈ scrapeTweets cfg p acc elems, InRange p s e t)
    ∧ (∀ c : ScrapedTweet, c.timestamp = "" ∨ p c.timestamp = none →
        dateOutOfRange cfg p c = false)
    ∧ (∀ cycles : List (List TweetElement),
        ∀ t ∈ runCycles cfg p cycles, InRange p s e t) := by
  refine ⟨?_, ?_, ?_⟩
  · intro acc elems h
    exact foldl_preserves_inRange hdr hs he _ acc h
  · intro c h
    exact dateOut_eq_false_of_unparseable cfg p h
  · intro cycles
    have : ∀ (cs : List (List TweetElement)) (acc : List ScrapedTweet),
        (∀ t ∈ acc, InRange p s e t) →
        ∀ t ∈ cs.foldl (scrapeTweets cfg p) acc, InRange p s e t := by
      intro cs
      induction cs with
      | nil => intro acc h; exact h
      | cons el cs ih =>
        intro acc h
        rw [List.foldl_cons]
        exact ih _ (foldl_preserves_inRange hdr hs he _ acc h)
    exact this cycles [] (by intro t ht; exact absurd ht (List.not_mem_nil t))

set_option maxRecDepth 8000 in
/-- Witness for C3: a record with an empty timestamp is not dropped by the
fixture date filter. -/
theorem date_filter_correct_witness :
    dateOutOfRange cfgRangeFix parseFix
      { text := "post", timestamp := "", author := "a" } = false :=
  (date_filter_correct cfgRangeFix parseFix rangeFix 10 12 rfl (by decide) (by decide)).2.1
    { text := "post", timestamp := "", author := "a" } (Or.inl rfl)

/-! ### Thread reconstruction lemmas (C4, C9) -/

lemma finalizeFrom_length (texts : List String) :
    ∀ (g : List ScrapedTweet) (i : Nat), (finalizeFrom texts i g).length = g.length := by
  intro g
  induction g with
  | nil => intro i; rfl
  | cons t ts ih => intro i; simp [finalizeFrom, ih]

lemma finalizeFrom_map_isThread (texts : List String) :
    ∀ (g : List ScrapedTweet) (i : Nat),
      (finalizeFrom texts i g).map ScrapedTweet.isThread
        = List.replicate g.length (some true) := by
  intro g
  induction g with
  | nil => intro i; rfl
  | cons t ts ih =>
    intro i
    simp only [finalizeFrom, List.map_cons, List.length_cons, List.replicate_succ, ih]

lemma finalizeFrom_map_threadTweets (texts : List String) :
    ∀ (g : List ScrapedTweet) (i : Nat),
      (finalizeFrom texts i g).map ScrapedTweet.threadTweets
        = List.replicate g.length (some texts) := by
  intro g
  induction g with
  | nil => intro i; rfl
  | cons t ts ih =>
    intro i
    simp only [finalizeFrom, List.map_cons, List.length_cons, List.replicate_succ, ih]

lemma finalizeFrom_map_position (texts : List String) :
    ∀ (g : List ScrapedTweet) (i : Nat),
      (finalizeFrom texts i g).map ScrapedTweet.threadPosition
        = (List.range g.length).map fun j => some (i + j + 1) := by
  intro g
  induction g with
  | nil => intro i; rfl
  | cons t ts ih =>
    intro i
    simp only [finalizeFrom, List.map_cons, List.length_cons, List.range_succ_eq_map,
      List.map_map, ih]
    refine congrArg (some (i + 0 + 1) :: ·) ?_
    · refine List.map_congr_left ?_
      intro j hj
      simp only [Function.comp]
      congr 1
      omega

lemma finalizeFrom_map_text (texts : List String) :
    ∀ (g : List ScrapedTweet) (i : Nat),
      (finalizeFrom texts i g).map ScrapedTweet.text = g.map ScrapedTweet.text := by
  intro g
  induction g with
  | nil => intro i; rfl
  | cons t ts ih => intro i; simp [finalizeFrom, ih]

lemma processLoop_nil (cur : List ScrapedTweet) (la : String) :
    processLoop [] cur la = flushThread cur := rfl

lemma processLoop_cons (e : TweetElement) (rest : List TweetElement)
    (cur : List ScrapedTweet) (la : String) :
    processLoop (e :: rest) cur la =
      match e.extracted with
      | none => processLoop rest cur la
      | some td =>
        if isThreadContinuation e la td.author && !cur.isEmpty then
          processLoop rest (cur ++ [td.toScraped]) la
        else
          flushThread cur ++ processLoop rest [td.toScraped] td.author := rfl

lemma groupLoop_nil (cur : List ScrapedTweet) (la : String) :
    groupLoop [] cur la = if cur.isEmpty then [] else [cur] := rfl

lemma groupLoop_cons (e : TweetElement) (rest : List TweetElement)
    (cur : List ScrapedTweet) (la : String) :
    groupLoop (e :: rest) cur la =
      match e.extracted with
      | none => groupLoop rest cur la
      | some td =>
        if isThreadContinuation e la td.author && !cur.isEmpty then
          groupLoop rest (cur ++ [td.toScraped]) la
        else
          (if cur.isEmpty then [] else [cur])
            ++ groupLoop rest [td.toScraped] td.author := rfl

lemma processLoop_cons_none {e : TweetElement} (rest : List TweetElement)
    (cur : List ScrapedTweet) (la : String) (he : e.extracted = none) :
    processLoop (e :: rest) cur la = processLoop rest cur la := by
  rw [processLoop_cons, he]

lemma processLoop_cons_some {e : TweetElement} {td : RawTweet} (rest : List TweetElement)
    (cur : List ScrapedTweet) (la : String) (he : e.extracted = some td) :
    processLoop (e :: rest) cur la =
      if isThreadContinuation e la td.author && !cur.isEmpty then
        processLoop rest (cur ++ [td.toScraped]) la
      else
        flushThread cur ++ processLoop rest [td.toScraped] td.author := by
  rw [processLoop_cons, he]

lemma groupLoop_cons_none {e : TweetElement} (rest : List TweetElement)
    (cur : List ScrapedTweet) (la : String) (he : e.extracted = none) :
    groupLoop (e :: rest) cur la = groupLoop rest cur la := by
  rw [groupLoop_cons, he]

lemma groupLoop_cons_some {e : TweetElement} {td : RawTweet} (rest : List TweetElement)
    (cur : List ScrapedTweet) (la : String) (he : e.extracted = some td) :
    groupLoop (e :: rest) cur la =
      if isThreadContinuation e la td.author && !cur.isEmpty then
        groupLoop rest (cur ++ [td.toScraped]) la
      else
        (if cur.isEmpty then [] else [cur])
          ++ groupLoop rest [td.toScraped] td.author := by
  rw [groupLoop_cons, he]

lemma processLoop_eq_join :
    ∀ (elems : List TweetElement) (cur : List ScrapedTweet) (la : String),
      processLoop elems cur la = ((groupLoop elems cur la).map flushThread).flatten := by
  intro elems
  induction elems with
  | nil =>
    intro cur la
    rw [processLoop_nil, groupLoop_nil]
    by_cases hc : cur.isEmpty = true
    · rw [List.isEmpty_iff] at hc
      subst hc
      rfl
    · rw [if_neg hc]
      simp
  | cons e rest ih =>
    intro cur la
    cases hx : e.extracted with
    | none =>
      rw [processLoop_cons_none rest cur la hx, groupLoop_cons_none rest cur la hx]
      exact ih cur la
    | some td =>
      rw [processLoop_cons_some rest cur la hx, groupLoop_cons_some rest cur la hx]
      by_cases hcont : (isThreadContinuation e la td.author && !cur.isEmpty) = true
      · rw [if_pos hcont, if_pos hcont]
        exact ih _ la
      · rw [if_neg hcont, if_neg hcont, ih]
        by_cases hc : cur.isEmpty = true
        · rw [List.isEmpty_iff] at hc
          subst hc
          simp [flushThread]
        · rw [if_neg hc]
          simp

lemma ne_nil_of_not_isEmpty {l : List ScrapedTweet} (h : ¬l.isEmpty = true) : l ≠ [] := by
  intro he
  exact h (by rw [he]; rfl)

lemma groupLoop_raw :
    ∀ (elems : List TweetElement) (cur : List ScrapedTweet) (la : String),
      (∀ t ∈ cur, t.isThread = none ∧ t.threadTweets = none ∧ t.threadPosition = none) →
      ∀ g ∈ groupLoop elems cur la, g ≠ [] ∧ ∀ t ∈ g,
        t.isThread = none ∧ t.threadTweets = none ∧ t.threadPosition = none := by
  intro elems
  induction elems with
  | nil =>
    intro cur la hcur g hg
    rw [groupLoop_nil] at hg
    by_cases hc : cur.isEmpty = true
    · rw [if_pos hc] at hg
      exact absurd hg (List.not_mem_nil g)
    · rw [if_neg hc, List.mem_singleton] at hg
      subst hg
      exact ⟨ne_nil_of_not_isEmpty hc, hcur⟩
  | cons e rest ih =>
    intro cur la hcur g hg
    cases hx : e.extracted with
    | none =>
      rw [groupLoop_cons_none rest cur la hx] at hg
      exact ih cur la hcur g hg
    | some td =>
      rw [groupLoop_cons_some rest cur la hx] at hg
      by_cases hcont : (isThreadContinuation e la td.author && !cur.isEmpty) = true
      · rw [if_pos hcont] at hg
        refine ih _ _ ?_ g hg
        intro t ht
        rcases List.mem_append.1 ht with h | h
        · exact hcur t h
        · rw [List.mem_singleton.1 h]
          exact ⟨rfl, rfl, rfl⟩
      · rw [if_neg hcont] at hg
        rcases List.mem_append.1 hg with h | h
        · by_cases hc : cur.isEmpty = true
          · rw [if_pos hc] at h
            exact absurd h (List.not_mem_nil g)
          · rw [if_neg hc, List.mem_singleton] at h
            subst h
            exact ⟨ne_nil_of_not_isEmpty hc, hcur⟩
        · refine ih _ _ ?_ g h
          intro t ht
          rw [List.mem_singleton.1 ht]
          exact ⟨rfl, rfl, rfl⟩

/-! ### C4: thread consistency -/

/-- C4: the Thread Reconstructor's output is the concatenation of its
finalized groups; every group is non-empty and enters finalization with no
thread fields set; a group of length ≥ 2 comes out with `isThread = true`
on every member, the identical `threadTweets` sequence (all member texts in
rendered order) on every member, and `threadPosition` running contiguously
1..k in rendered order; a singleton group is emitted unchanged, so its item
carries no thread fields. -/
theorem thread_consistency (elems : List TweetElement) :
    processTweetsForThreads elems = ((threadGroups elems).map flushThread).flatten
    ∧ (∀ g ∈ threadGroups elems, g ≠ [] ∧ ∀ t ∈ g,
        t.isThread = none ∧ t.threadTweets = none ∧ t.threadPosition = none)
    ∧ (∀ g ∈ threadGroups elems, 2 ≤ g.length →
        (flushThread g).map ScrapedTweet.isThread
            = List.replicate g.length (some true)
        ∧ (flushThread g).map ScrapedTweet.threadTweets
            = List.replicate g.length (some (g.map ScrapedTweet.text))
        ∧ (flushThread g).map ScrapedTweet.threadPosition
            = (List.range g.length).map (fun j => some (j + 1))
        ∧ (flushThread g).map ScrapedTweet.text = g.map ScrapedTweet.text)
    ∧ (∀ g ∈ threadGroups elems, g.length = 1 → flushThread g = g) := by
  refine ⟨processLoop_eq_join elems [] "", ?_, ?_, ?_⟩
  · intro g hg
    refine groupLoop_raw elems [] "" ?_ g hg
    intro t ht
    exact absurd ht (List.not_mem_nil t)
  · intro g hg h2
    have h1 : 1 < g.length := h2
    have hfl : flushThread g = finalizeThread g := by simp [flushThread, h1]
    rw [hfl]
    unfold finalizeThread
    refine ⟨finalizeFrom_map_isThread _ g 0, finalizeFrom_map_threadTweets _ g 0, ?_,
      finalizeFrom_map_text _ g 0⟩
    rw [finalizeFrom_map_position]
    refine List.map_congr_left ?_
    intro j hj
    congr 1
    omega
  · intro g hg h1
    have : ¬1 < g.length := by omega
    simp [flushThread, this]

set_option maxRecDepth 16000 in
/-- Witness for C4: the singleton group of the fixture rendering is emitted
unchanged. -/
theorem thread_consistency_witness :
    flushThread [rawD.toScraped] = [rawD.toScraped] :=
  (thread_consistency demoElems).2.2.2 [rawD.toScraped] (by decide) (by decide)

/-! ### C9: content and order preservation -/

lemma map_strip_finalizeFrom (texts : List String) :
    ∀ (g : List ScrapedTweet) (i : Nat),
      (finalizeFrom texts i g).map stripThread = g.map stripThread := by
  intro g
  induction g with
  | nil => intro i; rfl
  | cons t ts ih => intro i; simp [finalizeFrom, ih]; rfl

lemma map_strip_flush (g : List ScrapedTweet) :
    (flushThread g).map stripThread = g.map stripThread := by
  by_cases h : 1 < g.length
  · simp [flushThread, h, finalizeThread, map_strip_finalizeFrom]
  · simp [flushThread, h]

lemma stripThread_toScraped (r : RawTweet) : stripThread r.toScraped = r.toScraped := rfl

lemma processLoop_strip :
    ∀ (elems : List TweetElement) (cur : List ScrapedTweet) (la : String),
      (processLoop elems cur la).map stripThread
        = cur.map stripThread
          ++ (elems.filterMap TweetElement.extracted).map RawTweet.toScraped := by
  intro elems
  induction elems with
  | nil =>
    intro cur la
    rw [processLoop_nil, map_strip_flush]
    simp
  | cons e rest ih =>
    intro cur la
    cases hx : e.extracted with
    | none =>
      rw [processLoop_cons_none rest cur la hx, List.filterMap_cons_none hx]
      exact ih cur la
    | some td =>
      rw [processLoop_cons_some rest cur la hx, List.filterMap_cons_some hx]
      by_cases hcont : (isThreadContinuation e la td.author && !cur.isEmpty) = true
      · rw [if_pos hcont, ih, List.map_append]
        simp [stripThread_toScraped]
      · rw [if_neg hcont, List.map_append, map_strip_flush, ih]
        simp [stripThread_toScraped]

/-- C9: thread reconstruction is content- and order-preserving: modulo the
thread-annotation fields, its output is exactly the sequence of non-null
extraction results in rendered order — nothing dropped, duplicated or
reordered. -/
theorem thread_order_preserving (elems : List TweetElement) :
    (processTweetsForThreads elems).map stripThread
      = (elems.filterMap TweetElement.extracted).map RawTweet.toScraped := by
  unfold processTweetsForThreads
  rw [processLoop_strip]
  rfl

end ScrollScrape
